import Mathlib

/-!
Verification development for the obsidotion synchronization plugin.

Each definition below is a shallow embedding of a function of the source
tree (file and symbol named in its doc comment).  Effectful TypeScript code
is modelled by explicit state passing; the outcome of executing a remote
operation is supplied by an oracle function, and the unbounded
`while` loop of the queue processor is modelled with explicit fuel
(every theorem that needs the loop to run to completion supplies enough
fuel for the queue measure at hand).
-/

namespace Obsidotion

/-- Operation kind of `SyncOperation.type` in `src/services/sync-manager.ts`. -/
inductive OpType where
  | upload
  | download
  | delete
deriving DecidableEq, Repr

/-- Embeds the `SyncOperation` interface of `src/services/sync-manager.ts`
(fields `type`, `file` (its name), `retries`; `data`/`timestamp` do not
affect queue control flow and are omitted). -/
structure SyncOperation where
  type : OpType
  file : String
  retries : Nat
deriving DecidableEq, Repr

/-- Result class of one `executeOperation` attempt, as classified by the
`catch` branch of `SyncManager.processQueue`: success, a network-class
error (`isNetworkError` true), or any other error. -/
inductive Outcome where
  | success
  | networkError
  | otherError
deriving DecidableEq, Repr

/-- Observable events of a queue run: an execution attempt of an operation
(`executeOperation` called on it), and the terminal-failure report emitted
by `this.logger.error` once `retries` reaches 3. -/
inductive Event where
  | executed (op : SyncOperation)
  | terminalFailure (file : String)
deriving DecidableEq, Repr

/-- The mutable state consulted by `SyncManager.processQueue`:
`this.syncQueue` and `this.isOnline`. -/
structure QueueState where
  syncQueue : List SyncOperation
  isOnline : Bool
deriving DecidableEq, Repr

/-- Embeds the `while` loop of `SyncManager.processQueue`
(`src/services/sync-manager.ts` lines 194-218).  `exec` is the oracle
giving the outcome of `executeOperation` for an operation; `fuel` bounds
the number of loop iterations (the theorems below always supply enough).
Returns the final state and the list of emitted events in order. -/
def processQueue (exec : SyncOperation → Outcome) :
    Nat → QueueState → QueueState × List Event
  | 0, s => (s, [])
  | fuel + 1, s =>
    match s.syncQueue, s.isOnline with
    | [], _ => (s, [])
    | _ :: _, false => (s, [])
    | op :: rest, true =>
      match exec op with
      | Outcome.success =>
          let r := processQueue exec fuel ⟨rest, true⟩
          (r.1, Event.executed op :: r.2)
      | Outcome.networkError =>
          (⟨op :: rest, false⟩, [Event.executed op])
      | Outcome.otherError =>
          let op1 : SyncOperation := { op with retries := op.retries + 1 }
          if op1.retries < 3 then
            let r := processQueue exec fuel ⟨rest ++ [op1], true⟩
            (r.1, Event.executed op :: r.2)
          else
            let r := processQueue exec fuel ⟨rest, true⟩
            (r.1, Event.executed op :: Event.terminalFailure op.file :: r.2)

/-- Embeds the `online` handler installed by `setupNetworkMonitoring`
(`src/services/sync-manager.ts` lines 57-61): the connectivity-restored
signal sets `isOnline` to true (and then calls `processQueue` again). -/
def onlineSignal (s : QueueState) : QueueState :=
  { s with isOnline := true }

/-- Is the event an execution attempt of an operation on `name`? -/
def isExecutionOf (name : String) : Event → Bool
  | Event.executed op => op.file == name
  | _ => false

/-- Is the event a terminal-failure report for `name`? -/
def isTerminalFor (name : String) : Event → Bool
  | Event.terminalFailure f => f == name
  | _ => false

/-- Number of execution attempts of operations on file `name` in a trace. -/
def countExecutions (evs : List Event) (name : String) : Nat :=
  (evs.filter (isExecutionOf name)).length

/-- Number of terminal-failure reports for file `name` in a trace. -/
def countTerminal (evs : List Event) (name : String) : Nat :=
  (evs.filter (isTerminalFor name)).length

/-- Termination measure of the queue: an operation with retry count `r`
can be executed at most `3 - min r 3` more times, plus one for its removal. -/
def qMeasure (q : List SyncOperation) : Nat :=
  (q.map (fun op => 4 - min op.retries 3)).sum

theorem qMeasure_nil : qMeasure [] = 0 := rfl

theorem qMeasure_cons (op : SyncOperation) (q : List SyncOperation) :
    qMeasure (op :: q) = (4 - min op.retries 3) + qMeasure q := by
  simp [qMeasure]

theorem qMeasure_append (q r : List SyncOperation) :
    qMeasure (q ++ r) = qMeasure q + qMeasure r := by
  simp [qMeasure]

theorem qMeasure_pos_head (op : SyncOperation) (q : List SyncOperation) :
    1 ≤ qMeasure (op :: q) := by
  have h : 1 ≤ 4 - min op.retries 3 := by
    have : min op.retries 3 ≤ 3 := Nat.min_le_right _ _
    omega
  calc 1 ≤ 4 - min op.retries 3 := h
    _ ≤ (4 - min op.retries 3) + qMeasure q := Nat.le_add_right _ _
    _ = qMeasure (op :: q) := (qMeasure_cons op q).symm

theorem qMeasure_eq_zero (q : List SyncOperation) (h : qMeasure q = 0) :
    q = [] := by
  cases q with
  | nil => rfl
  | cons op rest =>
    exact absurd h (by have := qMeasure_pos_head op rest; omega)

/-- Processing an empty queue stops at once, whatever the fuel. -/
theorem processQueue_nil (exec : SyncOperation → Outcome) (fuel : Nat)
    (b : Bool) : processQueue exec fuel ⟨[], b⟩ = (⟨[], b⟩, []) := by
  cases fuel <;> rfl

/-- Processing while offline does nothing. -/
theorem processQueue_offline (exec : SyncOperation → Outcome) (fuel : Nat)
    (q : List SyncOperation) : processQueue exec fuel ⟨q, false⟩ = (⟨q, false⟩, []) := by
  cases fuel <;> cases q <;> rfl

/-- One loop iteration on a successful execution: the operation leaves the
queue and one execution event is emitted. -/
theorem processQueue_cons_success (exec : SyncOperation → Outcome)
    (fuel : Nat) (op : SyncOperation) (rest : List SyncOperation)
    (h : exec op = Outcome.success) :
    processQueue exec (fuel + 1) ⟨op :: rest, true⟩ =
      ((processQueue exec fuel ⟨rest, true⟩).1,
        Event.executed op :: (processQueue exec fuel ⟨rest, true⟩).2) := by
  simp [processQueue, h]

/-- One loop iteration on a network-class failure: the operation returns to
the front of the queue unchanged, the state goes offline, and the loop
halts after the single execution event. -/
theorem processQueue_cons_network (exec : SyncOperation → Outcome)
    (fuel : Nat) (op : SyncOperation) (rest : List SyncOperation)
    (h : exec op = Outcome.networkError) :
    processQueue exec (fuel + 1) ⟨op :: rest, true⟩ =
      (⟨op :: rest, false⟩, [Event.executed op]) := by
  simp [processQueue, h]

/-- One loop iteration on a non-network failure with retry budget left:
the operation is re-enqueued at the back with its retry count incremented. -/
theorem processQueue_cons_retry (exec : SyncOperation → Outcome)
    (fuel : Nat) (op : SyncOperation) (rest : List SyncOperation)
    (h : exec op = Outcome.otherError) (hr : op.retries + 1 < 3) :
    processQueue exec (fuel + 1) ⟨op :: rest, true⟩ =
      ((processQueue exec fuel ⟨rest ++ [{ op with retries := op.retries + 1 }], true⟩).1,
        Event.executed op ::
          (processQueue exec fuel ⟨rest ++ [{ op with retries := op.retries + 1 }], true⟩).2) := by
  simp [processQueue, h, hr]

/-- One loop iteration on a non-network failure exhausting the retry
budget: the operation is dropped and one terminal-failure report emitted. -/
theorem processQueue_cons_drop (exec : SyncOperation → Outcome)
    (fuel : Nat) (op : SyncOperation) (rest : List SyncOperation)
    (h : exec op = Outcome.otherError) (hr : ¬ op.retries + 1 < 3) :
    processQueue exec (fuel + 1) ⟨op :: rest, true⟩ =
      ((processQueue exec fuel ⟨rest, true⟩).1,
        Event.executed op :: Event.terminalFailure op.file ::
          (processQueue exec fuel ⟨rest, true⟩).2) := by
  simp [processQueue, h, hr]

/-- Whatever the outcome of the head operation, the first event of a
(resumed) processing round is the execution attempt of that head
operation: processing starts from the front of the queue. -/
theorem processQueue_head_event (exec : SyncOperation → Outcome)
    (fuel : Nat) (op : SyncOperation) (rest : List SyncOperation) :
    (processQueue exec (fuel + 1) ⟨op :: rest, true⟩).2.head? =
      some (Event.executed op) := by
  cases hx : exec op
  · rw [processQueue_cons_success exec fuel op rest hx]; rfl
  · rw [processQueue_cons_network exec fuel op rest hx]; rfl
  · by_cases hr : op.retries + 1 < 3
    · rw [processQueue_cons_retry exec fuel op rest hx hr]; rfl
    · rw [processQueue_cons_drop exec fuel op rest hx hr]; rfl

/-- C1: a non-network failure increments the retry counter and re-enqueues
the operation at the back while the counter is below 3; at 3 the operation
is dropped with a single terminal-failure report; an operation that always
fails with a non-network error is executed exactly 3 times (never a 4th)
and yields exactly one terminal failure for its document. -/
theorem c1_retry_budget (exec : SyncOperation → Outcome) :
    (∀ (fuel : Nat) (op : SyncOperation) (rest : List SyncOperation),
        exec op = Outcome.otherError → op.retries + 1 < 3 →
        processQueue exec (fuel + 1) ⟨op :: rest, true⟩ =
          ((processQueue exec fuel
              ⟨rest ++ [{ op with retries := op.retries + 1 }], true⟩).1,
            Event.executed op ::
              (processQueue exec fuel
                ⟨rest ++ [{ op with retries := op.retries + 1 }], true⟩).2)) ∧
    (∀ (fuel : Nat) (op : SyncOperation) (rest : List SyncOperation),
        exec op = Outcome.otherError → ¬ op.retries + 1 < 3 →
        processQueue exec (fuel + 1) ⟨op :: rest, true⟩ =
          ((processQueue exec fuel ⟨rest, true⟩).1,
            Event.executed op :: Event.terminalFailure op.file ::
              (processQueue exec fuel ⟨rest, true⟩).2)) ∧
    (∀ (t : OpType) (name : String) (fuel : Nat), 3 ≤ fuel →
        (∀ r : Nat, exec ⟨t, name, r⟩ = Outcome.otherError) →
        (processQueue exec fuel ⟨[⟨t, name, 0⟩], true⟩).1.syncQueue = [] ∧
        countExecutions (processQueue exec fuel ⟨[⟨t, name, 0⟩], true⟩).2 name = 3 ∧
        countTerminal (processQueue exec fuel ⟨[⟨t, name, 0⟩], true⟩).2 name = 1) := by
  refine ⟨fun fuel op rest h hr => processQueue_cons_retry exec fuel op rest h hr,
    fun fuel op rest h hr => processQueue_cons_drop exec fuel op rest h hr,
    fun t name fuel hfuel hfail => ?_⟩
  obtain ⟨k, hk⟩ := Nat.exists_eq_add_of_le hfuel
  subst hk
  have e1 : (3 + k) = (2 + k) + 1 := by omega
  have e2 : (2 + k) = (1 + k) + 1 := by omega
  have e3 : (1 + k) = k + 1 := by omega
  rw [e1, processQueue_cons_retry exec (2 + k) ⟨t, name, 0⟩ [] (hfail 0)
    (by show 0 + 1 < 3; omega)]
  rw [List.nil_append, e2,
    processQueue_cons_retry exec (1 + k) ⟨t, name, 1⟩ [] (hfail 1)
      (by show 1 + 1 < 3; omega)]
  rw [List.nil_append, e3,
    processQueue_cons_drop exec k ⟨t, name, 2⟩ [] (hfail 2)
      (by show ¬ 2 + 1 < 3; omega)]
  rw [processQueue_nil]
  refine ⟨rfl, ?_, ?_⟩ <;>
    simp [countExecutions, countTerminal, isExecutionOf, isTerminalFor]

/-- Concrete run of the C1 policy: one upload operation that always fails
with a non-network error is executed exactly 3 times and reported as
exactly one terminal failure, leaving the queue empty. -/
theorem c1_retry_budget_witness :
    (processQueue (fun _ => Outcome.otherError) 3
        ⟨[⟨OpType.upload, "a.md", 0⟩], true⟩).1.syncQueue = [] ∧
    countExecutions (processQueue (fun _ => Outcome.otherError) 3
        ⟨[⟨OpType.upload, "a.md", 0⟩], true⟩).2 "a.md" = 3 ∧
    countTerminal (processQueue (fun _ => Outcome.otherError) 3
        ⟨[⟨OpType.upload, "a.md", 0⟩], true⟩).2 "a.md" = 1 :=
  (c1_retry_budget (fun _ => Outcome.otherError)).2.2 OpType.upload "a.md" 3
    (by decide) (fun _ => rfl)

/-- C2: a network-class failure pushes the operation back to the front of
the queue unchanged (retry counter untouched), flips the queue offline, and
halts processing after that single execution attempt, so no operation
behind it is executed, lost or duplicated; the connectivity-restored
signal re-opens the queue with that exact operation still at the front,
and the resumed round executes it first. -/
theorem c2_network_failure_offline (exec : SyncOperation → Outcome)
    (fuel : Nat) (op : SyncOperation) (rest : List SyncOperation)
    (h : exec op = Outcome.networkError) :
    processQueue exec (fuel + 1) ⟨op :: rest, true⟩ =
      (⟨op :: rest, false⟩, [Event.executed op]) ∧
    onlineSignal ⟨op :: rest, false⟩ = ⟨op :: rest, true⟩ ∧
    (∀ (exec2 : SyncOperation → Outcome) (fuel2 : Nat),
        (processQueue exec2 (fuel2 + 1) (onlineSignal ⟨op :: rest, false⟩)).2.head? =
          some (Event.executed op)) := by
  refine ⟨processQueue_cons_network exec fuel op rest h, rfl, fun exec2 fuel2 => ?_⟩
  exact processQueue_head_event exec2 fuel2 op rest

/-- Concrete run of the C2 behaviour at a two-element queue: the failing
head returns to the front, the queue goes offline with the second
operation intact, and the resumed round re-executes the head first. -/
theorem c2_network_failure_offline_witness :
    processQueue (fun _ => Outcome.networkError) 1
      ⟨[⟨OpType.upload, "a.md", 0⟩, ⟨OpType.download, "b.md", 0⟩], true⟩ =
      (⟨[⟨OpType.upload, "a.md", 0⟩, ⟨OpType.download, "b.md", 0⟩], false⟩,
        [Event.executed ⟨OpType.upload, "a.md", 0⟩]) ∧
    onlineSignal ⟨[⟨OpType.upload, "a.md", 0⟩, ⟨OpType.download, "b.md", 0⟩], false⟩ =
      ⟨[⟨OpType.upload, "a.md", 0⟩, ⟨OpType.download, "b.md", 0⟩], true⟩ ∧
    (processQueue (fun _ => Outcome.success) 2
        (onlineSignal ⟨[⟨OpType.upload, "a.md", 0⟩,
          ⟨OpType.download, "b.md", 0⟩], false⟩)).2.head? =
      some (Event.executed ⟨OpType.upload, "a.md", 0⟩) := by
  have h := c2_network_failure_offline (fun _ => Outcome.networkError) 0
    ⟨OpType.upload, "a.md", 0⟩ [⟨OpType.download, "b.md", 0⟩] rfl
  exact ⟨h.1, h.2.1, h.2.2 (fun _ => Outcome.success) 1⟩

/-- C10: given fuel at least the queue measure (which bounds the number of
loop iterations the source's unbounded `while` can make), `processQueue`
only returns with an empty queue or offline; and each iteration moves the
dequeued head to exactly one of the four accounted places (completed,
front of queue going offline, back of queue with bumped retries, or
dropped with a terminal report) — never silently lost. -/
theorem c10_processQueue_accounting (exec : SyncOperation → Outcome) :
    (∀ (fuel : Nat) (s : QueueState), qMeasure s.syncQueue ≤ fuel →
        (processQueue exec fuel s).1.syncQueue = [] ∨
        (processQueue exec fuel s).1.isOnline = false) ∧
    (∀ (fuel : Nat) (op : SyncOperation) (rest : List SyncOperation),
        (exec op = Outcome.success →
          processQueue exec (fuel + 1) ⟨op :: rest, true⟩ =
            ((processQueue exec fuel ⟨rest, true⟩).1,
              Event.executed op :: (processQueue exec fuel ⟨rest, true⟩).2)) ∧
        (exec op = Outcome.networkError →
          processQueue exec (fuel + 1) ⟨op :: rest, true⟩ =
            (⟨op :: rest, false⟩, [Event.executed op])) ∧
        (exec op = Outcome.otherError → op.retries + 1 < 3 →
          processQueue exec (fuel + 1) ⟨op :: rest, true⟩ =
            ((processQueue exec fuel
                ⟨rest ++ [{ op with retries := op.retries + 1 }], true⟩).1,
              Event.executed op ::
                (processQueue exec fuel
                  ⟨rest ++ [{ op with retries := op.retries + 1 }], true⟩).2)) ∧
        (exec op = Outcome.otherError → ¬ op.retries + 1 < 3 →
          processQueue exec (fuel + 1) ⟨op :: rest, true⟩ =
            ((processQueue exec fuel ⟨rest, true⟩).1,
              Event.executed op :: Event.terminalFailure op.file ::
                (processQueue exec fuel ⟨rest, true⟩).2))) := by
  constructor
  · intro fuel
    induction fuel with
    | zero =>
      intro s hle
      left
      have hq : s.syncQueue = [] := qMeasure_eq_zero _ (Nat.le_zero.mp hle)
      obtain ⟨q, b⟩ := s
      simp only at hq
      subst hq
      rw [processQueue_nil]
    | succ fuel ih =>
      rintro ⟨q, b⟩ hle
      cases b with
      | false =>
        right
        rw [processQueue_offline]
      | true =>
        cases q with
        | nil =>
          left
          rw [processQueue_nil]
        | cons op rest =>
          have hmin : min op.retries 3 ≤ 3 := Nat.min_le_right _ _
          rw [qMeasure_cons] at hle
          cases hx : exec op with
          | success =>
            rw [processQueue_cons_success exec fuel op rest hx]
            exact ih ⟨rest, true⟩ (by simp only; omega)
          | networkError =>
            right
            rw [processQueue_cons_network exec fuel op rest hx]
          | otherError =>
            by_cases hr : op.retries + 1 < 3
            · rw [processQueue_cons_retry exec fuel op rest hx hr]
              refine ih ⟨rest ++ [{ op with retries := op.retries + 1 }], true⟩ ?_
              simp only [qMeasure_append, qMeasure_cons, qMeasure_nil]
              have h1 : min op.retries 3 = op.retries := by omega
              have h2 : min (op.retries + 1) 3 = op.retries + 1 := by omega
              omega
            · rw [processQueue_cons_drop exec fuel op rest hx hr]
              exact ih ⟨rest, true⟩ (by simp only; omega)
  · intro fuel op rest
    exact ⟨processQueue_cons_success exec fuel op rest,
      processQueue_cons_network exec fuel op rest,
      processQueue_cons_retry exec fuel op rest,
      processQueue_cons_drop exec fuel op rest⟩

/-- Concrete instance of the C10 invariant: a two-operation queue with
sufficient fuel finishes with an empty queue or offline. -/
theorem c10_processQueue_accounting_witness :
    (processQueue (fun _ => Outcome.success) 8
        ⟨[⟨OpType.upload, "a.md", 0⟩, ⟨OpType.download, "b.md", 0⟩], true⟩).1.syncQueue = [] ∨
    (processQueue (fun _ => Outcome.success) 8
        ⟨[⟨OpType.upload, "a.md", 0⟩, ⟨OpType.download, "b.md", 0⟩], true⟩).1.isOnline = false :=
  (c10_processQueue_accounting (fun _ => Outcome.success)).1 8
    ⟨[⟨OpType.upload, "a.md", 0⟩, ⟨OpType.download, "b.md", 0⟩], true⟩ (by decide)

/-- Title construction of `SyncManager.uploadFile` /
`UploadService.uploadFile` (`src/services/upload-service.ts` line 32):
the remote title is the local path, a colon, and the display name.
Strings are modelled as lists of characters. -/
def mkTitle (path basename : List Char) : List Char :=
  path ++ ':' :: basename

/-- Index of the last colon of a string (JavaScript
`fullTitle.lastIndexOf(':')`), `none` when there is no colon. -/
def lastColonIdx : List Char → Option Nat
  | [] => none
  | c :: cs =>
    match lastColonIdx cs with
    | some i => some (i + 1)
    | none => if c = ':' then some 0 else none

/-- Title parsing of `DownloadService.downloadPage`
(`src/services/download-service.ts` lines 77-85, also
`DownloadFromNotion.downloadPage`): split at the last colon into the
local path and the display name; a title with no colon is unparsable. -/
def parseTitle (t : List Char) : Option (List Char × List Char) :=
  match lastColonIdx t with
  | none => none
  | some i => some (t.take i, t.drop (i + 1))

/-- Embeds `Validator.validateFilePath` (`src/utils/validator.ts` lines
34-38): the path may not contain `< > : " | ? *` and must end in `.md`. -/
def validateFilePath (fp : List Char) : Bool :=
  fp.all (fun c => !(c = '<' || c = '>' || c = ':' || c = '"' || c = '|' ||
    c = '?' || c = '*')) && (String.mk fp).endsWith ".md"

/-- The write target chosen by `DownloadService.downloadPage`: the parsed
and validated (path, display name), or `none` when the page is skipped —
on `none` the function returns before any vault create/modify call, so no
local file is created or modified for that page. -/
def downloadPageTarget (title : List Char) : Option (List Char × List Char) :=
  match parseTitle title with
  | none => none
  | some (fp, name) => if validateFilePath fp then some (fp, name) else none

theorem lastColonIdx_of_not_mem (t : List Char) (h : ':' ∉ t) :
    lastColonIdx t = none := by
  induction t with
  | nil => rfl
  | cons c cs ih =>
    have hc : ¬ c = ':' := fun hc => h (hc ▸ List.mem_cons_self c cs)
    have hcs : ':' ∉ cs := fun hm => h (List.mem_cons_of_mem c hm)
    simp [lastColonIdx, ih hcs, hc]

theorem lastColonIdx_mkTitle (p b : List Char) (hb : ':' ∉ b) :
    lastColonIdx (mkTitle p b) = some p.length := by
  induction p with
  | nil =>
    simp [mkTitle, lastColonIdx, lastColonIdx_of_not_mem b hb]
  | cons c cs ih =>
    have ih' : lastColonIdx (cs ++ ':' :: b) = some cs.length := ih
    simp [mkTitle, lastColonIdx, ih']

/-- C3: the title codec round-trips — for a path and basename containing
no colon, parsing the constructed title `path ++ ":" ++ basename` at its
last colon recovers exactly that path and basename; and a title with no
colon at all is unparsable, so `downloadPage` skips the page without
creating or modifying any local file. -/
theorem c3_title_roundtrip (p b t : List Char)
    (hp : ':' ∉ p) (hb : ':' ∉ b) (ht : ':' ∉ t) :
    parseTitle (mkTitle p b) = some (p, b) ∧
    downloadPageTarget t = none := by
  constructor
  · have htake : (mkTitle p b).take p.length = p :=
      List.take_left p (':' :: b)
    have hdrop : (mkTitle p b).drop (p.length + 1) = b := by
      have hsplit : mkTitle p b = (p ++ [':']) ++ b := by simp [mkTitle]
      have hlen : (p ++ [':']).length = p.length + 1 := by simp
      rw [hsplit, ← hlen]
      exact List.drop_left (p ++ [':']) b
    simp [parseTitle, lastColonIdx_mkTitle p b hb, htake, hdrop]
  · rw [downloadPageTarget, parseTitle, lastColonIdx_of_not_mem t ht]

/-- Concrete C3 instance, the spec's own example: `"projects/x.md:x"`
parses to path `"projects/x.md"` and name `"x"`, while `"notitle"` is
rejected and skipped. -/
theorem c3_title_roundtrip_witness :
    parseTitle (mkTitle "projects/x.md".data "x".data) =
      some ("projects/x.md".data, "x".data) ∧
    downloadPageTarget "notitle".data = none :=
  c3_title_roundtrip "projects/x.md".data "x".data "notitle".data
    (by decide) (by decide) (by decide)

/-- A rich text item as consumed by `MarkdownConverter.extractRichText`
(`src/services/markdown-converter.ts` lines 149-170): content text,
annotation flags, and an optional link URL. -/
structure RichItem where
  content : String
  bold : Bool
  italic : Bool
  code : Bool
  strikethrough : Bool
  link : Option String
deriving DecidableEq, Repr

/-- A plain rich text item with no annotations. -/
def plainItem (s : String) : RichItem :=
  ⟨s, false, false, false, false, none⟩

/-- The block variants dispatched on by
`MarkdownConverter.blockToMarkdown` (`src/services/markdown-converter.ts`
lines 61-147).  `other` is any block type not matched by a `case` label,
carrying whatever `rich_text` payload `extractAnyRichText` would find. -/
inductive Block where
  | paragraph (rich : List RichItem)
  | heading1 (rich : List RichItem)
  | heading2 (rich : List RichItem)
  | heading3 (rich : List RichItem)
  | bulleted (rich : List RichItem) (hasChildren : Bool)
  | numbered (rich : List RichItem) (hasChildren : Bool)
  | codeBlock (language : String) (rich : List RichItem)
  | quote (rich : List RichItem)
  | divider
  | table
  | image (url : Option String) (caption : List RichItem)
  | toDo (checked : Bool) (rich : List RichItem)
  | other (typeName : String) (anyRich : Option (List RichItem))
deriving DecidableEq, Repr

/-- Formatting of one rich text item in `extractRichText`: bold, italic,
code, strikethrough wrappers applied in that order, then an optional link. -/
def formatRichItem (it : RichItem) : String :=
  let t0 := it.content
  let t1 := if it.bold then "**" ++ t0 ++ "**" else t0
  let t2 := if it.italic then "*" ++ t1 ++ "*" else t1
  let t3 := if it.code then "`" ++ t2 ++ "`" else t2
  let t4 := if it.strikethrough then "~~" ++ t3 ++ "~~" else t3
  match it.link with
  | some url => "[" ++ t4 ++ "](" ++ url ++ ")"
  | none => t4

/-- Embeds `MarkdownConverter.extractRichText`: format each item and join. -/
def extractRichText (l : List RichItem) : String :=
  String.join (l.map formatRichItem)

/-- Embeds `MarkdownConverter.extractAnyRichText` restricted to the
default branch where it is used: extract the block's `rich_text` payload
when one exists, otherwise the empty string. -/
def extractAnyRichText (anyRich : Option (List RichItem)) : String :=
  match anyRich with
  | some l => extractRichText l
  | none => ""

/-- The `'    '.repeat(indentLevel)` indentation prefix. -/
def indentStr (lvl : Nat) : String :=
  String.join (List.replicate lvl "    ")

/-- Placeholder emitted by `MarkdownConverter.convertTableToMarkdown`. -/
def tablePlaceholder : String :=
  "| Table content needs to be fetched from child blocks |\n|---|\n"

/-- Embeds `MarkdownConverter.blockToMarkdown`
(`src/services/markdown-converter.ts` lines 61-147): renders one block at
an indent level, threading the per-level numbered-list counter state
(the JavaScript `numbering` array, modelled as a function with default 0;
`numbering[indentLevel] || 1` reads 1 when the slot is unset).  Returns
the markdown fragment and the updated numbering state.  Only the
`numbered_list_item` case touches the numbering state. -/
def blockToMarkdown (block : Block) (lvl : Nat) (numbering : Nat → Nat) :
    String × (Nat → Nat) :=
  match block with
  | Block.paragraph rich =>
      (indentStr lvl ++ extractRichText rich ++ "\n", numbering)
  | Block.heading1 rich => ("# " ++ extractRichText rich ++ "\n", numbering)
  | Block.heading2 rich => ("## " ++ extractRichText rich ++ "\n", numbering)
  | Block.heading3 rich => ("### " ++ extractRichText rich ++ "\n", numbering)
  | Block.bulleted rich _ =>
      (indentStr lvl ++ "- " ++ extractRichText rich ++ "\n", numbering)
  | Block.numbered rich _ =>
      let currentNumber := if numbering lvl = 0 then 1 else numbering lvl
      (indentStr lvl ++ Nat.repr currentNumber ++ ". " ++
        extractRichText rich ++ "\n",
        Function.update numbering lvl (currentNumber + 1))
  | Block.codeBlock language rich =>
      ("```" ++ language ++ "\n" ++ extractRichText rich ++ "\n```\n", numbering)
  | Block.quote rich => ("> " ++ extractRichText rich ++ "\n", numbering)
  | Block.divider => ("---\n", numbering)
  | Block.table => (tablePlaceholder ++ "\n", numbering)
  | Block.image url caption =>
      match url with
      | some u =>
          ("![" ++ extractRichText caption ++ "](" ++ u ++ ")\n", numbering)
      | none => ("", numbering)
  | Block.toDo checked rich =>
      (indentStr lvl ++ "- " ++ (if checked then "[x]" else "[ ]") ++ " " ++
        extractRichText rich ++ "\n", numbering)
  | Block.other _ anyRich =>
      let fallbackText := extractAnyRichText anyRich
      if fallbackText = "" then ("", numbering)
      else (indentStr lvl ++ fallbackText ++ "\n", numbering)

/-- Embeds the loop of `MarkdownConverter.notionBlocksToMarkdown`: convert
each block in order, accumulating the markdown and threading the
numbering state. -/
def blocksToMarkdown (blocks : List Block) (lvl : Nat)
    (numbering : Nat → Nat) : String × (Nat → Nat) :=
  match blocks with
  | [] => ("", numbering)
  | b :: rest =>
    let r1 := blockToMarkdown b lvl numbering
    let r2 := blocksToMarkdown rest lvl r1.2
    (r1.1 ++ r2.1, r2.2)

/-- Embeds `MarkdownConverter.notionBlocksToMarkdown` at its call sites
(indent level 0, fresh empty numbering array). -/
def notionBlocksToMarkdown (blocks : List Block) : String :=
  (blocksToMarkdown blocks 0 (fun _ => 0)).1

/-- C4 counterexample: rendering [numbered, numbered, bulleted, numbered]
at one level does NOT restart the fourth item at 1 — neither converter
ever resets `numbering[indentLevel]` when a non-list block interrupts a
run, so the fourth item renders `3.`, and the output claimed by the spec
(`1.`, `2.`, `-`, `1.`) is not produced. -/
theorem c4_numbering_counterexample :
    notionBlocksToMarkdown [Block.numbered [plainItem "a"] false,
      Block.numbered [plainItem "b"] false,
      Block.bulleted [plainItem "c"] false,
      Block.numbered [plainItem "d"] false] = "1. a\n2. b\n- c\n3. d\n" ∧
    notionBlocksToMarkdown [Block.numbered [plainItem "a"] false,
      Block.numbered [plainItem "b"] false,
      Block.bulleted [plainItem "c"] false,
      Block.numbered [plainItem "d"] false] ≠ "1. a\n2. b\n- c\n1. d\n" := by
  constructor
  · decide
  · decide

/-- C4 (amended): the numbered-list counter of a level is NOT reset by an
interrupting non-list block; it continues across the interruption, so
[numbered, numbered, bulleted, numbered] renders `1.`, `2.`, `-`, `3.`. -/
theorem c4_numbering_continues (a b c d : List RichItem)
    (ha hb hc hd : Bool) :
    notionBlocksToMarkdown [Block.numbered a ha, Block.numbered b hb,
      Block.bulleted c hc, Block.numbered d hd] =
      "1. " ++ extractRichText a ++ "\n" ++
      ("2. " ++ extractRichText b ++ "\n") ++
      ("- " ++ extractRichText c ++ "\n") ++
      ("3. " ++ extractRichText d ++ "\n") := by
  have h1 : Nat.repr 1 = "1" := rfl
  have h2 : Nat.repr 2 = "2" := rfl
  have h3 : Nat.repr 3 = "3" := rfl
  simp [notionBlocksToMarkdown, blocksToMarkdown, blockToMarkdown,
    indentStr, Function.update, h1, h2, h3, String.join, String.append_assoc]

/-- Embeds `MarkdownConverter.markdownToNotionBlocks`
(`src/services/markdown-converter.ts` lines 15-46): the underlying
third-party `markdownToBlocks` converter is an oracle parameter `conv`
that can fail; on failure the wrapper falls back to a single paragraph
block containing the whole input text instead of aborting. -/
def markdownToNotionBlocks (conv : String → Except String (List Block))
    (markdown : String) : List Block :=
  match conv markdown with
  | Except.ok blocks => blocks
  | Except.error _ => [Block.paragraph [plainItem markdown]]

/-- C9: both codec directions are total.  Markup-to-blocks never aborts:
on converter failure it yields the single fallback paragraph holding the
input text, on success the converted blocks.  Blocks-to-markup processes
every block: conversion of a list always decomposes into the head block's
fragment followed by the converted tail (no abort), and a block of an
unhandled type degrades to its best-effort rich-text extraction (or
contributes nothing) while leaving the numbering state untouched. -/
theorem c9_codec_total (conv : String → Except String (List Block)) :
    (∀ (markdown e : String), conv markdown = Except.error e →
        markdownToNotionBlocks conv markdown =
          [Block.paragraph [plainItem markdown]]) ∧
    (∀ (markdown : String) (bs : List Block), conv markdown = Except.ok bs →
        markdownToNotionBlocks conv markdown = bs) ∧
    (∀ (b : Block) (rest : List Block) (lvl : Nat) (numbering : Nat → Nat),
        blocksToMarkdown (b :: rest) lvl numbering =
          ((blockToMarkdown b lvl numbering).1 ++
            (blocksToMarkdown rest lvl (blockToMarkdown b lvl numbering).2).1,
            (blocksToMarkdown rest lvl (blockToMarkdown b lvl numbering).2).2)) ∧
    (∀ (typeName : String) (anyRich : Option (List RichItem)) (lvl : Nat)
        (numbering : Nat → Nat),
        blockToMarkdown (Block.other typeName anyRich) lvl numbering =
          (if extractAnyRichText anyRich = "" then ""
            else indentStr lvl ++ extractAnyRichText anyRich ++ "\n",
            numbering)) := by
  refine ⟨fun markdown e h => ?_, fun markdown bs h => ?_,
    fun b rest lvl numbering => rfl, fun typeName anyRich lvl numbering => ?_⟩
  · simp [markdownToNotionBlocks, h]
  · simp [markdownToNotionBlocks, h]
  · by_cases hz : extractAnyRichText anyRich = "" <;>
      simp [blockToMarkdown, hz]

/-- Concrete C9 instance: a converter that always fails yields exactly the
fallback paragraph holding the input text; a converter that succeeds with
an empty block list yields that list. -/
theorem c9_codec_total_witness :
    markdownToNotionBlocks (fun _ => Except.error "parse failure") "hello" =
      [Block.paragraph [plainItem "hello"]] ∧
    markdownToNotionBlocks (fun _ => Except.ok []) "hello" = [] :=
  ⟨(c9_codec_total (fun _ => Except.error "parse failure")).1 "hello"
      "parse failure" rfl,
    (c9_codec_total (fun _ => Except.ok [])).2.1 "hello" [] rfl⟩

/-- A raw query result as checked by `Validator.isValidNotionPage`
(`src/utils/validator.ts` lines 25-32): each guard of the `&&` chain can
fail, so every layer is optional.  `id = some ""` models a present but
falsy (empty) id string. -/
structure RawPage where
  id : Option String
  nameTitle : Option (Option (List String))
deriving DecidableEq, Repr

/-- Embeds `Validator.isValidNotionPage`: the page needs a truthy `id`,
`properties`, `properties.Name`, and a `properties.Name.title` array.
`nameTitle = none` models missing `properties` or `Name`;
`some none` a `Name` whose `title` is absent; `some (some l)` the array. -/
def isValidNotionPage (p : RawPage) : Bool :=
  match p.id, p.nameTitle with
  | some i, some (some _) => !(i == "")
  | _, _ => false

/-- A block as returned by the `blocks/{id}/children` endpoint; only the
`id` field matters to `clearPageBlocks`. -/
structure ApiBlock where
  id : String
deriving DecidableEq, Repr

/-- The cursor loop of `NotionAPIService.queryDatabase`
(`src/services/notion-api.ts` lines 378-400).  The remote service is
modelled by `table`: the successive response pages; the cursor is the
page index, and `next_cursor` is present exactly while more pages remain.
`fuel` bounds the iterations (`queryDatabase` supplies enough). -/
def queryLoop (table : List (List RawPage)) :
    Nat → Nat → List RawPage → List RawPage
  | 0, _, acc => acc
  | fuel + 1, i, acc =>
    let acc1 := acc ++ (table.getD i []).filter isValidNotionPage
    if i + 1 < table.length then queryLoop table fuel (i + 1) acc1 else acc1

/-- Embeds `NotionAPIService.queryDatabase`: run the cursor loop from the
first page with an empty accumulator. -/
def queryDatabase (table : List (List RawPage)) : List RawPage :=
  queryLoop table table.length 0 []

/-- The cursor loop of `NotionAPIService.getPageBlocks`
(`src/services/notion-api.ts` lines 326-343): same pagination contract as
`queryLoop`, concatenating all result pages without filtering. -/
def blocksLoop (table : List (List ApiBlock)) :
    Nat → Nat → List ApiBlock → List ApiBlock
  | 0, _, acc => acc
  | fuel + 1, i, acc =>
    let acc1 := acc ++ table.getD i []
    if i + 1 < table.length then blocksLoop table fuel (i + 1) acc1 else acc1

/-- Embeds `NotionAPIService.getPageBlocks`. -/
def getPageBlocks (table : List (List ApiBlock)) : List ApiBlock :=
  blocksLoop table table.length 0 []

theorem queryLoop_correct (table : List (List RawPage)) :
    ∀ (fuel i : Nat) (acc : List RawPage), i < table.length →
      table.length - i ≤ fuel →
      queryLoop table fuel i acc =
        acc ++ ((table.drop i).flatten).filter isValidNotionPage := by
  intro fuel
  induction fuel with
  | zero => intro i acc hi hf; omega
  | succ fuel ih =>
    intro i acc hi hf
    have hget : table.getD i [] = table[i] := List.getD_eq_getElem table [] hi
    have hdrop : table.drop i = table[i] :: table.drop (i + 1) :=
      List.drop_eq_getElem_cons hi
    rw [queryLoop]
    by_cases hnext : i + 1 < table.length
    · simp only [hnext, if_pos]
      rw [ih (i + 1) _ hnext (by omega)]
      simp only [hget, hdrop, List.flatten_cons, List.filter_append,
        List.append_assoc]
    · simp only [hnext, if_neg, if_false]
      have hlen : i + 1 = table.length := by omega
      have hdrop2 : table.drop (i + 1) = [] := by
        rw [hlen]; exact List.drop_length table
      rw [hget, hdrop, hdrop2]
      simp

theorem blocksLoop_correct (table : List (List ApiBlock)) :
    ∀ (fuel i : Nat) (acc : List ApiBlock), i < table.length →
      table.length - i ≤ fuel →
      blocksLoop table fuel i acc = acc ++ (table.drop i).flatten := by
  intro fuel
  induction fuel with
  | zero => intro i acc hi hf; omega
  | succ fuel ih =>
    intro i acc hi hf
    have hget : table.getD i [] = table[i] := List.getD_eq_getElem table [] hi
    have hdrop : table.drop i = table[i] :: table.drop (i + 1) :=
      List.drop_eq_getElem_cons hi
    rw [blocksLoop]
    by_cases hnext : i + 1 < table.length
    · simp only [hnext, if_pos]
      rw [ih (i + 1) _ hnext (by omega)]
      simp only [hget, hdrop, List.flatten_cons, List.append_assoc]
    · simp only [hnext, if_neg, if_false]
      have hlen : i + 1 = table.length := by omega
      have hdrop2 : table.drop (i + 1) = [] := by
        rw [hlen]; exact List.drop_length table
      rw [hget, hdrop, hdrop2]
      simp

/-- C6: `queryDatabase` follows the cursor chain to the end and returns
the concatenation of all pages in order — never a proper prefix — keeping
exactly the results that pass the shape check (`isValidNotionPage`); the
block-children fetch aggregates the full cursor chain the same way. -/
theorem c6_pagination_aggregates (table : List (List RawPage))
    (btable : List (List ApiBlock)) :
    queryDatabase table = (table.flatten).filter isValidNotionPage ∧
    (queryDatabase table).all isValidNotionPage = true ∧
    getPageBlocks btable = btable.flatten := by
  have hq : queryDatabase table = (table.flatten).filter isValidNotionPage := by
    cases htab : table with
    | nil => rfl
    | cons p rest =>
      rw [queryDatabase, queryLoop_correct (p :: rest) (p :: rest).length 0 []
        (by simp) (by omega)]
      simp
  refine ⟨hq, ?_, ?_⟩
  · rw [hq, List.all_eq_true]
    intro x hx
    exact (List.mem_filter.mp hx).2
  · cases hbt : btable with
    | nil => rfl
    | cons p rest =>
      rw [getPageBlocks, blocksLoop_correct (p :: rest) (p :: rest).length 0 []
        (by simp) (by omega)]
      simp

/-- The batching loop of `NotionAPIService.appendBlocks`
(`src/services/notion-api.ts` lines 353-367): `for (let i = 0; i <
blocks.length; i += batchSize)` with `batchSize = 10`, one request with
payload `blocks.slice(i, i + 10)` per iteration.  `fuel` bounds the
iterations; `appendBlocksBatches` supplies the list length, which always
suffices. -/
def chunkLoop {α : Type} : Nat → List α → List (List α)
  | 0, _ => []
  | _ + 1, [] => []
  | fuel + 1, a :: l => (a :: l).take 10 :: chunkLoop fuel ((a :: l).drop 10)

/-- The successive request payloads issued by
`NotionAPIService.appendBlocks` for a block list. -/
def appendBlocksBatches (blocks : List Block) : List (List Block) :=
  chunkLoop blocks.length blocks

theorem chunkLoop_correct {α : Type} :
    ∀ (fuel : Nat) (l : List α), l.length ≤ fuel →
      (chunkLoop fuel l).flatten = l ∧
      ((chunkLoop fuel l).all fun c => decide (1 ≤ c.length ∧ c.length ≤ 10)) = true ∧
      (chunkLoop fuel l).length = (l.length + 9) / 10 := by
  intro fuel
  induction fuel with
  | zero =>
    intro l hl
    have : l = [] := List.eq_nil_of_length_eq_zero (by omega)
    subst this
    exact ⟨rfl, rfl, by simp [chunkLoop]⟩
  | succ fuel ih =>
    intro l hl
    cases l with
    | nil => exact ⟨rfl, rfl, by simp [chunkLoop]⟩
    | cons a t =>
      have hlen : ((a :: t).drop 10).length ≤ fuel := by
        simp only [List.length_cons] at hl
        simp only [List.length_drop, List.length_cons]
        omega
      obtain ⟨ihj, iha, ihl⟩ := ih ((a :: t).drop 10) hlen
      refine ⟨?_, ?_, ?_⟩
      · rw [chunkLoop]
        simp only [List.flatten_cons, ihj]
        exact List.take_append_drop 10 (a :: t)
      · rw [chunkLoop]
        simp only [List.all_cons, iha, Bool.and_true]
        have h1 : 1 ≤ ((a :: t).take 10).length := by
          simp [List.length_take]
        have h2 : ((a :: t).take 10).length ≤ 10 := by
          simp [List.length_take]
        simp [h1, h2]
      · rw [chunkLoop]
        simp only [List.length_cons, ihl, List.length_drop, List.length_cons]
        omega

/-- C7: `appendBlocks` splits its input into consecutive batches of at
most 10 blocks (each nonempty), issuing `⌈n/10⌉` requests whose payloads
concatenate to exactly the input list in order; an empty input issues no
request. -/
theorem c7_appendBlocks_batches (blocks : List Block) :
    (appendBlocksBatches blocks).flatten = blocks ∧
    ((appendBlocksBatches blocks).all
      fun c => decide (1 ≤ c.length ∧ c.length ≤ 10)) = true ∧
    (appendBlocksBatches blocks).length = (blocks.length + 9) / 10 ∧
    appendBlocksBatches [] = [] := by
  obtain ⟨h1, h2, h3⟩ := chunkLoop_correct blocks.length blocks (Nat.le_refl _)
  exact ⟨h1, h2, h3, rfl⟩

/-- The sequence of delete requests issued by
`NotionAPIService.clearPageBlocks` (`src/services/notion-api.ts` lines
369-376): fetch the full (paginated) child list, then delete each child
in reverse of the fetched order (`blocks.reverse()` before the loop). -/
def clearPageBlocksDeletes (table : List (List ApiBlock)) : List String :=
  ((getPageBlocks table).reverse).map ApiBlock.id

/-- C8: `clearPageBlocks` first aggregates the complete child list across
all cursor pages, then issues exactly one delete per fetched child, in
reverse of the fetched order (last child first). -/
theorem c8_clear_deletes_reverse (table : List (List ApiBlock)) :
    clearPageBlocksDeletes table = ((table.flatten).reverse).map ApiBlock.id ∧
    (clearPageBlocksDeletes table).length = (table.flatten).length := by
  have hb : getPageBlocks table = table.flatten := by
    cases hbt : table with
    | nil => rfl
    | cons p rest =>
      rw [getPageBlocks, blocksLoop_correct (p :: rest) (p :: rest).length 0 []
        (by simp) (by omega)]
      simp
  constructor
  · rw [clearPageBlocksDeletes, hb]
  · rw [clearPageBlocksDeletes, hb, List.length_map, List.length_reverse]

/-- The frontmatter fields recognized by the engine
(`src/services/sync-manager.ts` lines 354-364,
`src/services/upload-service.ts` lines 129-135, and the services-era main
plugin embedded in `src/src/styles.css`, whose `updateFileMetadata` and
`filterFilesForUpload` use `contentHash` and `filePath`). -/
structure Frontmatter where
  notionID : Option String
  lastSync : Option String
  localChecksum : Option String
  notionChecksum : Option String
  contentHash : Option String
  filePath : Option String
deriving DecidableEq, Repr

/-- A local markdown file as the sync pass sees it: vault path, basename,
parsed frontmatter, and the body text after the frontmatter block
(what `parseMarkdownWithFrontmatter` returns as `content`). -/
structure LocalFile where
  path : String
  basename : String
  frontmatter : Frontmatter
  body : String
deriving DecidableEq, Repr

/-- Embeds the `SyncMetadata` record built by
`SyncManager.getSyncMetadata` (`src/services/sync-manager.ts` lines
354-364); `lastSyncTime` is not consulted by any sync decision and is
omitted. -/
structure SyncMetadata where
  notionId : Option String
  localChecksum : String
  notionChecksum : String
deriving DecidableEq, Repr

/-- Embeds `SyncManager.getSyncMetadata`: read the stored checksums and
remote id out of the frontmatter, defaulting to the empty string. -/
def getSyncMetadata (f : LocalFile) : SyncMetadata :=
  { notionId := f.frontmatter.notionID,
    localChecksum := f.frontmatter.localChecksum.getD "",
    notionChecksum := f.frontmatter.notionChecksum.getD "" }

/-- JavaScript 32-bit signed integer coercion (`| 0` / `& hash` / `<< `
semantics): wrap into the range `[-2^31, 2^31)`. -/
def toInt32 (n : Int) : Int :=
  (n + 2 ^ 31) % 2 ^ 32 - 2 ^ 31

/-- One step of `SyncManager.simpleHash` (`src/services/sync-manager.ts`
lines 398-406): `hash = ((hash << 5) - hash) + charCode; hash &= hash`.
The JavaScript `<<` coerces to 32-bit before producing its result, and
the final `& hash` coerces the sum. -/
def simpleHashStep (hash : Int) (c : Nat) : Int :=
  toInt32 (toInt32 (hash * 32) - hash + c)

/-- Embeds `SyncManager.simpleHash`: fold the step over the UTF-16 code
units of the string (code points of the basic plane coincide with
`Char.toNat`) starting from 0, and render the result in decimal. -/
def simpleHash (s : String) : String :=
  toString (s.data.foldl (fun h c => simpleHashStep h c.toNat) 0)

/-- Embeds `SyncManager.getFileHash`: the hash of the file body with the
frontmatter already stripped. -/
def getFileHash (f : LocalFile) : String :=
  simpleHash f.body

/-- A remote request issued during the sync pass: the mutating
update/clear/append/create sequence of an upload executor, or the archive
(soft delete) issued by `cleanupDeletedFiles`. -/
inductive RemoteCall where
  | updatePage (id title : String)
  | clearPage (id : String)
  | appendBlocksTo (id : String)
  | createPage (databaseID title : String)
  | archivePage (id : String)
deriving DecidableEq, Repr

/-- The remote document a call mutates: every call except `createPage`
targets an existing page id. -/
def callTarget : RemoteCall → Option String
  | RemoteCall.updatePage id _ => some id
  | RemoteCall.clearPage id => some id
  | RemoteCall.appendBlocksTo id => some id
  | RemoteCall.createPage _ _ => none
  | RemoteCall.archivePage id => some id

/-- Embeds the remote-call sequence of one upload executor:
`ObsidotionPlugin.uploadSingleFile` in the main plugin embedded in
`src/src/styles.css` (`SyncManager.uploadFile` and
`UploadService.uploadFile` are identical): when a remote id is bound,
update the title, clear the page and re-append the blocks; otherwise
create the page.  The sync pass reaches this executor only for files
that passed the `filterFilesForUpload` gate (see `uploadPassCalls`). -/
def uploadFileCalls (databaseID : String) (f : LocalFile) : List RemoteCall :=
  let title := f.path ++ ":" ++ f.basename
  match f.frontmatter.notionID with
  | some nid => [RemoteCall.updatePage nid title, RemoteCall.clearPage nid,
      RemoteCall.appendBlocksTo nid]
  | none => [RemoteCall.createPage databaseID title]

/-- JavaScript truthiness of an optional string: `undefined` and the
empty string are falsy. -/
def truthy : Option String → Bool
  | none => false
  | some s => !(s == "")

/-- Embeds `ObsidotionPlugin.calculateContentHash` of the main plugin
embedded in `src/src/styles.css` — its body is identical to
`SyncManager.simpleHash`. -/
def calculateContentHash (content : String) : String :=
  simpleHash content

/-- The per-file classification of
`ObsidotionPlugin.filterFilesForUpload` (embedded in `src/src/styles.css`
at the `filterFilesForUpload` method): a file needs uploading when it has
no truthy bound `notionID` (new file), or the stored `contentHash`
differs from the freshly computed hash of its body (content changed), or
the stored `filePath` differs from its current path (moved/renamed);
otherwise it is up to date and skipped. -/
def needsUpload (f : LocalFile) : Bool :=
  if !(truthy f.frontmatter.notionID) then true
  else if !(f.frontmatter.contentHash == some (calculateContentHash f.body)) then true
  else if !(f.frontmatter.filePath == some f.path) then true
  else false

/-- Embeds `ObsidotionPlugin.filterFilesForUpload`: keep, in order, the
files that need uploading. -/
def filterFilesForUpload (files : List LocalFile) : List LocalFile :=
  files.filter needsUpload

/-- The set (as a list) of Notion ids referenced by local files, as built
by `ObsidotionPlugin.cleanupDeletedFiles` (`if (frontmatter.notionID)
currentNotionIds.add(...)`). -/
def localNotionIds (files : List LocalFile) : List String :=
  (files.filterMap (fun f => f.frontmatter.notionID)).filter
    (fun s => !(s == ""))

/-- The archive requests issued by `ObsidotionPlugin.cleanupDeletedFiles`
(embedded in `src/src/styles.css`): one archive per remote page whose id
is referenced by no local file. -/
def cleanupDeletedFilesCalls (files : List LocalFile)
    (remoteIds : List String) : List RemoteCall :=
  (remoteIds.filter (fun id => decide (id ∉ localNotionIds files))).map
    RemoteCall.archivePage

/-- The upload requests of `ObsidotionPlugin.uploadToNotion`: only the
files that passed the `filterFilesForUpload` gate reach
`uploadSingleFile`. -/
def uploadPassCalls (databaseID : String) (files : List LocalFile) :
    List RemoteCall :=
  ((filterFilesForUpload files).map (uploadFileCalls databaseID)).flatten

/-- All remote requests of one `uploadToNotion` sync pass
(`src/src/styles.css`, `uploadToNotion` method): `cleanupDeletedFiles`
first, then the batched uploads of the filtered file list.  `remoteIds`
are the page ids returned by `queryDatabase` during cleanup. -/
def syncPassCalls (databaseID : String) (files : List LocalFile)
    (remoteIds : List String) : List RemoteCall :=
  cleanupDeletedFilesCalls files remoteIds ++ uploadPassCalls databaseID files

/-- A file whose stored `contentHash` equals the freshly computed hash of
its body and whose stored `filePath` equals its current path: the
`filterFilesForUpload` gate classifies it as up to date. -/
def c5File : LocalFile :=
  { path := "a.md", basename := "a",
    frontmatter :=
      { notionID := some "nid123",
        lastSync := some "2024-01-01T00:00:00.000Z",
        localChecksum := some "0", notionChecksum := some "0",
        contentHash := some "0",
        filePath := some "a.md" },
    body := "" }

/-- C5: a local document with a truthy bound remote id whose stored
`contentHash` equals the freshly computed hash of its body and whose
stored `filePath` equals its current path is classified "skip" by the
`filterFilesForUpload` gate, is therefore absent from the upload list,
and — provided no other local file binds the same remote id — the whole
sync pass (cleanup archival plus the batched uploads) issues no remote
call that mutates its remote document: it is not uploaded, not archived
(its id is locally referenced, so `cleanupDeletedFiles` keeps it), and
the pass issues no download operation at all. -/
theorem c5_skip_classified (databaseID : String) (files : List LocalFile)
    (remoteIds : List String) (f : LocalFile) (nid : String)
    (hf : f ∈ files)
    (hnid : f.frontmatter.notionID = some nid)
    (hne : nid ≠ "")
    (hhash : f.frontmatter.contentHash = some (calculateContentHash f.body))
    (hpath : f.frontmatter.filePath = some f.path)
    (hunique : ∀ g ∈ files, g.frontmatter.notionID = some nid → g = f) :
    needsUpload f = false ∧
    f ∉ filterFilesForUpload files ∧
    ∀ c ∈ syncPassCalls databaseID files remoteIds, callTarget c ≠ some nid := by
  have hskip : needsUpload f = false := by
    simp [needsUpload, truthy, hnid, hne, hhash, hpath]
  have hnotmem : f ∉ filterFilesForUpload files := by
    intro hmem
    have := (List.mem_filter.mp hmem).2
    rw [hskip] at this
    exact Bool.false_ne_true this
  refine ⟨hskip, hnotmem, fun c hc hT => ?_⟩
  rcases List.mem_append.mp hc with hclean | hup
  · obtain ⟨id, hid, hcid⟩ := List.mem_map.mp hclean
    subst hcid
    have hidnid : id = nid := by
      simpa [callTarget] using hT
    subst hidnid
    have hkeep : id ∈ localNotionIds files := by
      refine List.mem_filter.mpr ⟨List.mem_filterMap.mpr ⟨f, hf, hnid⟩, ?_⟩
      simp [hne]
    have := (List.mem_filter.mp hid).2
    simp [hkeep] at this
  · obtain ⟨m, hm, hcm⟩ := List.mem_flatten.mp hup
    obtain ⟨g, hg, hgm⟩ := List.mem_map.mp hm
    subst hgm
    rcases hgid : g.frontmatter.notionID with _ | m
    · simp only [uploadFileCalls, hgid, List.mem_cons, List.not_mem_nil,
        or_false] at hcm
      rw [hcm] at hT
      exact absurd hT (by simp [callTarget])
    · simp only [uploadFileCalls, hgid, List.mem_cons, List.not_mem_nil,
        or_false] at hcm
      have hmn : m = nid := by
        rcases hcm with h1 | h1 | h1 <;>
          (rw [h1] at hT; simpa [callTarget] using hT)
      subst hmn
      have hgf : g = f := hunique g (List.mem_of_mem_filter hg) hgid
      rw [hgf] at hg
      exact hnotmem hg

/-- Concrete C5 instance: the hash- and path-matching `c5File` is
classified up to date and excluded from the upload list, and a pass over
it with one orphaned remote page only archives the orphan — the archive
call does not target `c5File`'s page. -/
theorem c5_skip_classified_witness :
    needsUpload c5File = false ∧
    c5File ∉ filterFilesForUpload [c5File] ∧
    callTarget (RemoteCall.archivePage "orphan1") ≠ some "nid123" := by
  have h := c5_skip_classified "db" [c5File] ["nid123", "orphan1"] c5File
    "nid123" (by decide) rfl (by decide) rfl rfl
    (fun g hg _ => by simpa using hg)
  exact ⟨h.1, h.2.1,
    h.2.2 (RemoteCall.archivePage "orphan1") (by decide)⟩

end Obsidotion
